import Mathlib

/-!
Verification of the pci-char driver (src/pci-char.c): a shallow embedding of
the per-region character-device protocol (dev_open, dev_seek, dev_read,
dev_write) and of the attach/detach lifecycle (pci_probe, pci_remove),
together with theorems settling the specified properties.

Machine integers are modelled as Nat/Int with explicit reductions modulo
2^32 (u32) and 2^64 (resource_size_t) at the points where the C code
truncates or wraps.
-/

/-- errno EINVAL (invalid argument), returned negated as in the C code. -/
def EINVAL : Int := 22

/-- errno EFAULT (caller-buffer fault during copy_to_user / copy_from_user). -/
def EFAULT : Int := 14

/-- errno ENXIO (no such device or address), returned by dev_open for minor > 5. -/
def ENXIO_CODE : Int := 6

/-- errno EIO, returned by dev_open when the BAR is unused or not memory type. -/
def EIO_CODE : Int := 5

/-- The driver record struct pci_char as far as the file operations read it:
bar[num].len (resource_size_t, modelled as Nat) and bar[num].addr
(the ioremapped base, modelled as a Nat address). -/
structure PChar where
  barLen : Fin 6 → Nat
  barAddr : Fin 6 → Nat

/-- An open file's state as the driver uses it: file->f_pos (loff_t). -/
structure Session where
  pos : Int
deriving DecidableEq

/-- dev_open: minor numbers above 5 are rejected with -ENXIO; a BAR of
length 0 (unused or not memory type) is rejected with -EIO; otherwise the
open succeeds.  A freshly opened file has f_pos = 0 (VFS initialises the
struct file), which dev_open leaves untouched. -/
def dev_open (pchar : PChar) (num : Nat) : Except Int Session :=
  if h : 5 < num then Except.error (- ENXIO_CODE)
  else if pchar.barLen ⟨num, by omega⟩ = 0 then Except.error (- EIO_CODE)
  else Except.ok { pos := 0 }

/-- The value bar[num].len - 4 as the C code computes it: len has unsigned
type resource_size_t (64-bit), so the subtraction wraps modulo 2^64. -/
def lenMinus4 (len : Nat) : Int := ((len + (2 ^ 64 - 4)) % 2 ^ 64 : Nat)

/-- The switch (whence) block of dev_seek: SEEK_SET (0) takes the offset
absolutely, SEEK_CUR (1) adds it to f_pos, anything else loads -EINVAL into
new_pos. -/
def seekTarget (pos offset whence : Int) : Int :=
  if whence = 0 then offset
  else if whence = 1 then pos + offset
  else - EINVAL

/-- dev_seek: computes new_pos from whence, rejects it with -EINVAL if it is
not 4-byte aligned (C truncated remainder) or negative or greater than
bar[num].len - 4, and otherwise stores it into f_pos and returns it. -/
def dev_seek (pchar : PChar) (num : Fin 6) (s : Session) (offset whence : Int) :
    Int × Session :=
  let new_pos := seekTarget s.pos offset whence
  if new_pos.tmod 4 ≠ 0 then (- EINVAL, s)
  else if new_pos < 0 ∨ new_pos > lenMinus4 (pchar.barLen num) then (- EINVAL, s)
  else (new_pos, { pos := new_pos })

/-- Accumulator of the dev_read transfer loop: the words delivered to the
user buffer in order, the addresses passed to readl in order, the running
byte count, and whether copy_to_user faulted. -/
structure RdAcc where
  out : List Nat
  loads : List Nat
  bytes : Nat
  fault : Bool
deriving DecidableEq

/-- The for (; count; count -= 4) loop of dev_read, iterated n = count / 4
times starting at user-buffer word index j.  Each iteration performs
readl(bar addr + offset) — the offset is never changed by the loop — and
then copy_to_user, which faults exactly when cf j is true; a fault stops
the loop after the readl but before delivering the word. -/
def readLoop (mem : Nat → Nat) (addr : Nat) (cf : Nat → Bool) : Nat → Nat → RdAcc
  | _, 0 => ⟨[], [], 0, false⟩
  | j, n + 1 =>
    if cf j then ⟨[], [addr], 0, true⟩
    else
      let r := readLoop mem addr cf (j + 1) n
      ⟨(mem addr % 2 ^ 32) :: r.out, addr :: r.loads, r.bytes + 4, r.fault⟩

/-- Result of dev_read: the ssize_t return value, the words written to the
user buffer, the readl addresses, and the values of *ppos and of the
device record after the call (the C function writes to neither). -/
structure ReadOut where
  ret : Int
  out : List Nat
  loads : List Nat
  pposAfter : Int
  pcharAfter : PChar

/-- dev_read: u32 offset = *ppos (truncating loff_t to u32); counts that are
not multiples of 4 are rejected with -EINVAL; otherwise count / 4 words are
read, each by readl at bar addr + offset, and the return value is the bytes
transferred if any were, else the error (-EFAULT on a first-word fault, 0
for count = 0). -/
def dev_read (pchar : PChar) (num : Fin 6) (mem : Nat → Nat) (count : Nat)
    (ppos : Int) (cf : Nat → Bool) : ReadOut :=
  let offset : Nat := (ppos % (2 ^ 32 : Int)).toNat
  if count % 4 ≠ 0 then ⟨- EINVAL, [], [], ppos, pchar⟩
  else
    let r := readLoop mem (pchar.barAddr num + offset) cf 0 (count / 4)
    ⟨if r.bytes ≠ 0 then (r.bytes : Int) else if r.fault then - EFAULT else 0,
     r.out, r.loads, ppos, pchar⟩

/-- Accumulator of the dev_write transfer loop: the memory after the stores
so far, the (address, word) pairs passed to writel in order, the running
byte count, and whether copy_from_user faulted. -/
structure WrAcc where
  mem : Nat → Nat
  stores : List (Nat × Nat)
  bytes : Nat
  fault : Bool

/-- The for (; count; count -= 4) loop of dev_write: each iteration does
copy_from_user of the user word at index j (faulting exactly when cf j is
true, which stops the loop before any store) and then
writel(data, bar addr + offset) — the offset is never changed by the loop. -/
def writeLoop (addr : Nat) (ubuf : Nat → Nat) (cf : Nat → Bool) :
    (Nat → Nat) → Nat → Nat → WrAcc
  | mem, _, 0 => ⟨mem, [], 0, false⟩
  | mem, j, n + 1 =>
    if cf j then ⟨mem, [], 0, true⟩
    else
      let data := ubuf j % 2 ^ 32
      let r := writeLoop addr ubuf cf (fun a => if a = addr then data else mem a)
        (j + 1) n
      ⟨r.mem, (addr, data) :: r.stores, r.bytes + 4, r.fault⟩

/-- Result of dev_write: the ssize_t return value, the device memory after
the call, the writel stores, and *ppos and the device record after the
call (the C function writes to neither). -/
structure WriteOut where
  ret : Int
  memAfter : Nat → Nat
  stores : List (Nat × Nat)
  pposAfter : Int
  pcharAfter : PChar

/-- dev_write: u32 offset = *ppos; counts that are not multiples of 4 are
rejected with -EINVAL; otherwise count / 4 words are copied from the user
buffer and stored by writel at bar addr + offset, and the return value is
the bytes transferred if any were, else the error. -/
def dev_write (pchar : PChar) (num : Fin 6) (mem : Nat → Nat) (count : Nat)
    (ppos : Int) (ubuf : Nat → Nat) (cf : Nat → Bool) : WriteOut :=
  let offset : Nat := (ppos % (2 ^ 32 : Int)).toNat
  if count % 4 ≠ 0 then ⟨- EINVAL, mem, [], ppos, pchar⟩
  else
    let r := writeLoop (pchar.barAddr num + offset) ubuf cf mem 0 (count / 4)
    ⟨if r.bytes ≠ 0 then (r.bytes : Int) else if r.fault then - EFAULT else 0,
     r.mem, r.stores, ppos, pchar⟩

/-- The fallible external steps of pci_probe and the per-BAR data it reads:
which bits pci_select_bars(pdev, IORESOURCE_MEM) sets, each BAR's
pci_resource_len, and which of the kmalloc / pci_enable_device_mem /
pci_request_selected_regions / ioremap / alloc_chrdev_region / cdev_add /
device_create calls fail. -/
structure ProbeEnv where
  kmallocFails : Bool
  enableFails : Bool
  requestFails : Bool
  memBars : Fin 6 → Bool
  resLen : Fin 6 → Nat
  ioremapFails : Fin 6 → Bool
  mapBase : Fin 6 → Nat
  chrdevFails : Bool
  cdevAddFails : Bool
  devCreateFails : Fin 6 → Bool

/-- Observable system state around one device: which BAR mappings are live,
which /dev nodes exist, whether the selected regions are requested, the
PCI device enabled, the chrdev range and cdev registered, whether the
kmalloc'd pci_char record is still allocated, and the pci drvdata pointer. -/
structure SysState where
  mapped : Fin 6 → Bool
  published : Fin 6 → Bool
  regionsHeld : Bool
  deviceEnabled : Bool
  chrdevRegistered : Bool
  cdevAdded : Bool
  recordLive : Bool
  drvdata : Option PChar

/-- The state before pci_probe touches anything. -/
def initState : SysState :=
  { mapped := fun _ => false
    published := fun _ => false
    regionsHeld := false
    deviceEnabled := false
    chrdevRegistered := false
    cdevAdded := false
    recordLive := false
    drvdata := none }

/-- The BAR indices 0..5 in the order the for loops of pci_probe visit them. -/
def idxList : List (Fin 6) := List.finRange 6

/-- The indices i-1, i-2, ..., 0 visited by the unwind loops
for (i--; i >= 0; i--) after a failure at index i. -/
def revBelow (i : Fin 6) : List (Fin 6) :=
  ((List.finRange 6).filter (fun j => j.val < i.val)).reverse

/-- The BAR-mapping for loop of pci_probe over a list of indices: for each
selected bit it ioremaps the BAR (recording the length) and on an ioremap
failure breaks with that index, leaving bar[i].len unwritten (none);
unselected BARs get addr = NULL and len = 0. -/
def mapBars (e : ProbeEnv) :
    (Fin 6 → Bool) → (Fin 6 → Option Nat) → List (Fin 6) →
    Option (Fin 6) × (Fin 6 → Bool) × (Fin 6 → Option Nat)
  | m, lens, [] => (none, m, lens)
  | m, lens, i :: rest =>
    if e.memBars i then
      if e.ioremapFails i then (some i, m, lens)
      else
        mapBars e (fun j => if j = i then true else m j)
          (fun j => if j = i then some (e.resLen i) else lens j) rest
    else mapBars e m (fun j => if j = i then some 0 else lens j) rest

/-- An unwind loop if (pchar->bar[i].len) iounmap(pchar->bar[i].addr) over a
list of indices, reading the possibly partially initialised len fields. -/
def unmapIf (lens : Fin 6 → Option Nat) : (Fin 6 → Bool) → List (Fin 6) → (Fin 6 → Bool)
  | m, [] => m
  | m, i :: rest =>
    unmapIf lens
      (if (lens i).getD 0 ≠ 0 then fun j => if j = i then false else m j else m) rest

/-- The device_create for loop of pci_probe: for each BAR with nonzero len
it creates the /dev node, breaking with the index on a failure. -/
def createNodes (e : ProbeEnv) (len : Fin 6 → Nat) :
    (Fin 6 → Bool) → List (Fin 6) → Option (Fin 6) × (Fin 6 → Bool)
  | p, [] => (none, p)
  | p, i :: rest =>
    if len i ≠ 0 then
      if e.devCreateFails i then (some i, p)
      else createNodes e len (fun j => if j = i then true else p j) rest
    else createNodes e len p rest

/-- An unwind loop if (pchar->bar[i].len) device_destroy(...) over a list of
indices. -/
def destroyIf (len : Fin 6 → Nat) : (Fin 6 → Bool) → List (Fin 6) → (Fin 6 → Bool)
  | p, [] => p
  | p, i :: rest =>
    destroyIf len
      (if len i ≠ 0 then fun j => if j = i then false else p j else p) rest

/-- pci_probe: kmalloc the record, enable the device, request the selected
memory regions, ioremap the selected BARs (on failure: iounmap every
earlier mapped BAR, release the regions, disable, free), allocate the
chrdev range and add the cdev (on failure: iounmap all, release, disable,
free), create a /dev node per nonzero BAR (on failure: destroy the earlier
nodes, delete the cdev, unregister, iounmap all, release, disable, free),
and finally publish the record through pci_set_drvdata.  Returns the
success flag and the resulting system state. -/
def pci_probe (e : ProbeEnv) : Bool × SysState :=
  if e.kmallocFails then (false, initState)
  else if e.enableFails then (false, initState)
  else if e.requestFails then (false, initState)
  else
    match mapBars e (fun _ => false) (fun _ => none) idxList with
    | (some i, m, lens) =>
      (false, { initState with mapped := unmapIf lens m (revBelow i) })
    | (none, m, lens) =>
      let len : Fin 6 → Nat := fun j => (lens j).getD 0
      if e.chrdevFails then
        (false, { initState with mapped := unmapIf lens m idxList })
      else if e.cdevAddFails then
        (false, { initState with mapped := unmapIf lens m idxList })
      else
        match createNodes e len (fun _ => false) idxList with
        | (some i, p) =>
          (false, { initState with
                      mapped := unmapIf lens m idxList
                      published := destroyIf len p (revBelow i) })
        | (none, p) =>
          (true, { mapped := m
                   published := p
                   regionsHeld := true
                   deviceEnabled := true
                   chrdevRegistered := true
                   cdevAdded := true
                   recordLive := true
                   drvdata := some { barLen := len
                                     barAddr := fun j =>
                                       if e.memBars j then e.mapBase j else 0 } })

/-- The externally visible actions pci_remove performs, in order. -/
inductive Act where
  | devDestroy (i : Fin 6)
  | cdevDel
  | unregChrdev
  | iounmap (i : Fin 6)
  | releaseRegions
  | disableDev
  | kfree
deriving DecidableEq

/-- The device_destroy for loop of pci_remove: destroys the /dev node of
every BAR with nonzero len, emitting the action, with no check of whether
the node still exists. -/
def destroyAll (len : Fin 6 → Nat) : (Fin 6 → Bool) → List (Fin 6) →
    (Fin 6 → Bool) × List Act
  | p, [] => (p, [])
  | p, i :: rest =>
    if len i ≠ 0 then
      let r := destroyAll len (fun j => if j = i then false else p j) rest
      (r.1, Act.devDestroy i :: r.2)
    else destroyAll len p rest

/-- The iounmap for loop of pci_remove: unmaps every BAR with nonzero len,
emitting the action, with no check of whether the mapping is still live. -/
def unmapAll (len : Fin 6 → Nat) : (Fin 6 → Bool) → List (Fin 6) →
    (Fin 6 → Bool) × List Act
  | m, [] => (m, [])
  | m, i :: rest =>
    if len i ≠ 0 then
      let r := unmapAll len (fun j => if j = i then false else m j) rest
      (r.1, Act.iounmap i :: r.2)
    else unmapAll len m rest

/-- pci_remove given the pci_char record read from drvdata: destroys every
node with nonzero len, deletes the cdev, unregisters the chrdev range,
iounmaps every BAR with nonzero len, releases the regions, disables the
device and kfrees the record.  It never writes drvdata, so the stale
pointer remains published after the call. -/
def pci_remove (pchar : PChar) (s : SysState) : SysState × List Act :=
  let d := destroyAll pchar.barLen s.published idxList
  let u := unmapAll pchar.barLen s.mapped idxList
  ({ s with published := d.1
            mapped := u.1
            cdevAdded := false
            chrdevRegistered := false
            regionsHeld := false
            deviceEnabled := false
            recordLive := false },
   d.2 ++ [Act.cdevDel, Act.unregChrdev] ++ u.2 ++
     [Act.releaseRegions, Act.disableDev, Act.kfree])

/-- The remove entry point: pchar = pci_get_drvdata(pdev) and then the
teardown; if drvdata is NULL the C code would dereference a null pointer,
modelled as none. -/
def detachSys (s : SysState) : Option (SysState × List Act) :=
  match s.drvdata with
  | some pchar => some (pci_remove pchar s)
  | none => none

/-- The recorded bar[j].len of the pci_char record published through
pci_set_drvdata, or 0 when no record is published. -/
def barLenOf (s : SysState) (j : Fin 6) : Nat :=
  match s.drvdata with
  | some p => p.barLen j
  | none => 0

/-- A fault oracle under which no copy_to_user / copy_from_user faults. -/
def cfNone : Nat → Bool := fun _ => false

/-- A fault oracle that faults exactly on the word at buffer index 1. -/
def cfOne : Nat → Bool := fun k => decide (k = 1)

/-- A concrete BAR memory: word 7 at address 0, word 9 everywhere else. -/
def memEx : Nat → Nat := fun a => if a = 0 then 7 else 9

/-- A concrete device record: one 16-byte BAR at index 0 mapped at base 0. -/
def pcharEx : PChar :=
  { barLen := fun j => if j.val = 0 then 16 else 0
    barAddr := fun _ => 0 }

/-- The system state of pcharEx right after a successful attach. -/
def sEx : SysState :=
  { mapped := fun j => decide (j.val = 0)
    published := fun j => decide (j.val = 0)
    regionsHeld := true
    deviceEnabled := true
    chrdevRegistered := true
    cdevAdded := true
    recordLive := true
    drvdata := some pcharEx }

/-- A concrete probe environment: one selected 16-byte BAR at index 0 and
no failures. -/
def eEx : ProbeEnv :=
  { kmallocFails := false
    enableFails := false
    requestFails := false
    memBars := fun j => decide (j.val = 0)
    resLen := fun _ => 16
    ioremapFails := fun _ => false
    mapBase := fun _ => 0
    chrdevFails := false
    cdevAddFails := false
    devCreateFails := fun _ => false }

/-- A probe environment with BARs 0 and 1 selected where ioremap fails at
index 1. -/
def eExMapFail : ProbeEnv :=
  { eEx with
      memBars := fun j => decide (j.val ≤ 1)
      ioremapFails := fun j => decide (j.val = 1) }

/-- A probe environment with BARs 0 and 1 selected where device_create
fails at index 1. -/
def eExPubFail : ProbeEnv :=
  { eEx with
      memBars := fun j => decide (j.val ≤ 1)
      devCreateFails := fun j => decide (j.val = 1) }

/-- The C alignment test new_pos % 4 (truncated remainder) is zero exactly
when 4 divides new_pos. -/
theorem tmod_four_eq_zero_iff_dvd (a : Int) : a.tmod 4 = 0 ↔ (4 : Int) ∣ a := by
  constructor
  · intro h
    have h2 := Int.tdiv_add_tmod a 4
    exact ⟨a.tdiv 4, by omega⟩
  · rintro ⟨k, rfl⟩
    exact Int.mul_tmod_right 4 k

/-- For a region of at least one word whose length fits resource_size_t,
the wrapped unsigned subtraction len - 4 is the plain difference. -/
theorem lenMinus4_eq (len : Nat) (h4 : 4 ≤ len) (hlt : len < 2 ^ 64) :
    lenMinus4 len = (len : Int) - 4 := by
  unfold lenMinus4
  have : (len + (2 ^ 64 - 4)) % 2 ^ 64 = len - 4 := by omega
  rw [this]
  omega

/-- A fault-free run of the read loop delivers n copies of the word at the
(fixed) address, loads n times from that address, and counts 4n bytes. -/
theorem readLoop_nofault (mem : Nat → Nat) (addr : Nat) (cf : Nat → Bool) :
    ∀ (n j : Nat), (∀ k, k < n → cf (j + k) = false) →
    readLoop mem addr cf j n =
      ⟨List.replicate n (mem addr % 2 ^ 32), List.replicate n addr, 4 * n, false⟩ := by
  intro n
  induction n with
  | zero => intro j _; rfl
  | succ n ih =>
    intro j h
    have h0 : cf j = false := by simpa using h 0 (Nat.succ_pos n)
    have hrest : ∀ k, k < n → cf (j + 1 + k) = false := by
      intro k hk
      have := h (k + 1) (by omega)
      simpa [Nat.add_assoc, Nat.add_comm 1 k] using this
    simp only [readLoop, h0, Bool.false_eq_true, if_false, ih (j + 1) hrest,
      List.replicate_succ, RdAcc.mk.injEq]
    exact ⟨trivial, trivial, by omega, trivial⟩

/-- A run of the read loop whose first copy_to_user fault is at word index f
(with f < n words requested) transfers exactly 4f bytes and records the
fault. -/
theorem readLoop_fault (mem : Nat → Nat) (addr : Nat) (cf : Nat → Bool) :
    ∀ (f n j : Nat), f < n → (∀ k, k < f → cf (j + k) = false) → cf (j + f) = true →
    (readLoop mem addr cf j n).bytes = 4 * f ∧
      (readLoop mem addr cf j n).fault = true := by
  intro f
  induction f with
  | zero =>
    intro n j hn _ hf
    match n, hn with
    | n + 1, _ =>
      simp only [Nat.add_zero] at hf
      simp [readLoop, hf]
  | succ f ih =>
    intro n j hn h0 hf
    match n, hn with
    | n + 1, hn =>
      have hj : cf j = false := by simpa using h0 0 (Nat.succ_pos f)
      have hrest : ∀ k, k < f → cf (j + 1 + k) = false := by
        intro k hk
        have := h0 (k + 1) (by omega)
        simpa [Nat.add_assoc, Nat.add_comm 1 k] using this
      have hf2 : cf (j + 1 + f) = true := by
        have : j + 1 + f = j + (f + 1) := by omega
        rw [this]; exact hf
      have := ih n (j + 1) (by omega) hrest hf2
      simp only [readLoop, hj, Bool.false_eq_true, if_false]
      constructor
      · simp [this.1]; omega
      · simp [this.2]

/-- Every address the read loop passes to readl is the fixed address. -/
theorem readLoop_loads (mem : Nat → Nat) (addr : Nat) (cf : Nat → Bool) :
    ∀ (n j : Nat), ∀ a ∈ (readLoop mem addr cf j n).loads, a = addr := by
  intro n
  induction n with
  | zero => intro j a ha; simp [readLoop] at ha
  | succ n ih =>
    intro j a ha
    by_cases hj : cf j
    · simp [readLoop, hj] at ha; exact ha
    · simp only [readLoop, hj, Bool.false_eq_true, if_false, List.mem_cons] at ha
      rcases ha with h | h
      · exact h
      · exact ih (j + 1) a h

/-- A run of the write loop whose first copy_from_user fault is at word
index f (with f < n words requested) transfers exactly 4f bytes and
records the fault. -/
theorem writeLoop_fault (addr : Nat) (ubuf : Nat → Nat) (cf : Nat → Bool) :
    ∀ (f n j : Nat) (mem : Nat → Nat), f < n →
    (∀ k, k < f → cf (j + k) = false) → cf (j + f) = true →
    (writeLoop addr ubuf cf mem j n).bytes = 4 * f ∧
      (writeLoop addr ubuf cf mem j n).fault = true := by
  intro f
  induction f with
  | zero =>
    intro n j mem hn _ hf
    match n, hn with
    | n + 1, _ =>
      simp only [Nat.add_zero] at hf
      simp [writeLoop, hf]
  | succ f ih =>
    intro n j mem hn h0 hf
    match n, hn with
    | n + 1, hn =>
      have hj : cf j = false := by simpa using h0 0 (Nat.succ_pos f)
      have hrest : ∀ k, k < f → cf (j + 1 + k) = false := by
        intro k hk
        have := h0 (k + 1) (by omega)
        simpa [Nat.add_assoc, Nat.add_comm 1 k] using this
      have hf2 : cf (j + 1 + f) = true := by
        have : j + 1 + f = j + (f + 1) := by omega
        rw [this]; exact hf
      have hh := ih n (j + 1) (fun a => if a = addr then ubuf j % 2 ^ 32 else mem a)
        (by omega) hrest hf2
      simp only [writeLoop, hj, Bool.false_eq_true, if_false]
      exact ⟨by omega, hh.2⟩

/-- Every store the write loop performs goes to the fixed address. -/
theorem writeLoop_stores (addr : Nat) (ubuf : Nat → Nat) (cf : Nat → Bool) :
    ∀ (n j : Nat) (mem : Nat → Nat),
    ∀ p ∈ (writeLoop addr ubuf cf mem j n).stores, p.1 = addr := by
  intro n
  induction n with
  | zero => intro j mem p hp; simp [writeLoop] at hp
  | succ n ih =>
    intro j mem p hp
    by_cases hj : cf j
    · simp [writeLoop, hj] at hp
    · simp only [writeLoop, hj, Bool.false_eq_true, if_false, List.mem_cons] at hp
      rcases hp with h | h
      · rw [h]
      · exact ih (j + 1) _ p h

/-- Every BAR index is visited by the for loops. -/
theorem mem_idxList (j : Fin 6) : j ∈ idxList := List.mem_finRange j

/-- The unwind loop after a failure at index i visits exactly the indices
below i. -/
theorem mem_revBelow (i j : Fin 6) : j ∈ revBelow i ↔ j.val < i.val := by
  simp [revBelow, List.mem_reverse, List.mem_filter, List.mem_finRange]

/-- The probe loops visit the indices in strictly increasing order. -/
theorem idxList_pairwise : idxList.Pairwise (fun a b : Fin 6 => a.val < b.val) := by
  decide

/-- If the mapping loop completes without an ioremap failure, it has mapped
exactly the selected BARs among the visited indices and has written each
visited bar[j].len (the BAR length if selected, 0 otherwise). -/
theorem mapBars_none_char (e : ProbeEnv) :
    ∀ (l : List (Fin 6)) (m : Fin 6 → Bool) (lens : Fin 6 → Option Nat)
      (m2 : Fin 6 → Bool) (lens2 : Fin 6 → Option Nat),
    mapBars e m lens l = (none, m2, lens2) →
    (∀ j, m2 j = true ↔ (m j = true ∨ (j ∈ l ∧ e.memBars j = true))) ∧
    (∀ j, lens2 j =
      if j ∈ l then some (if e.memBars j then e.resLen j else 0) else lens j) := by
  intro l
  induction l with
  | nil =>
    intro m lens m2 lens2 h
    simp only [mapBars, Prod.mk.injEq] at h
    obtain ⟨-, h1, h2⟩ := h
    subst h1; subst h2
    constructor
    · intro j; simp
    · intro j; simp
  | cons a rest ih =>
    intro m lens m2 lens2 h
    by_cases hb : e.memBars a = true
    · by_cases hio : e.ioremapFails a = true
      · simp [mapBars, hb, hio] at h
      · simp only [mapBars, hb, if_true, hio, Bool.false_eq_true, if_false] at h
        obtain ⟨ih1, ih2⟩ := ih _ _ _ _ h
        constructor
        · intro j
          rw [ih1 j]
          by_cases hj : j = a
          · subst hj
            simp [hb]
          · simp [hj, List.mem_cons]
        · intro j
          rw [ih2 j]
          by_cases hj : j = a
          · rw [hj]
            by_cases hr : a ∈ rest <;> simp [hr, hb]
          · by_cases hr : j ∈ rest <;> simp [hr, hj]
    · simp only [mapBars, hb, if_false] at h
      obtain ⟨ih1, ih2⟩ := ih _ _ _ _ h
      constructor
      · intro j
        rw [ih1 j]
        by_cases hj : j = a
        · subst hj
          simp [hb]
        · simp [hj, List.mem_cons]
      · intro j
        rw [ih2 j]
        by_cases hj : j = a
        · rw [hj]
          by_cases hr : a ∈ rest <;> simp [hr, hb]
        · by_cases hr : j ∈ rest <;> simp [hr, hj]

/-- If the mapping loop over a strictly increasing index list breaks with an
ioremap failure at index i, then every BAR it has mapped is a selected BAR
below i whose bar[j].len field was written with its (nonwrapped) length,
and bar fields of unvisited indices are untouched. -/
theorem mapBars_some_char (e : ProbeEnv) :
    ∀ (l : List (Fin 6)), l.Pairwise (fun a b : Fin 6 => a.val < b.val) →
    ∀ (m : Fin 6 → Bool) (lens : Fin 6 → Option Nat) (i : Fin 6)
      (m2 : Fin 6 → Bool) (lens2 : Fin 6 → Option Nat),
    mapBars e m lens l = (some i, m2, lens2) →
    i ∈ l ∧
    (∀ j, m2 j = true →
      (m j = true ∨
        (j ∈ l ∧ j.val < i.val ∧ e.memBars j = true ∧
          lens2 j = some (e.resLen j)))) ∧
    (∀ j, j ∉ l → lens2 j = lens j) := by
  intro l
  induction l with
  | nil =>
    intro _ m lens i m2 lens2 h
    simp [mapBars] at h
  | cons a rest ih =>
    intro hp m lens i m2 lens2 h
    have hpa : ∀ b ∈ rest, a.val < b.val := (List.pairwise_cons.mp hp).1
    have hpr : rest.Pairwise (fun a b : Fin 6 => a.val < b.val) :=
      (List.pairwise_cons.mp hp).2
    have hanr : a ∉ rest := fun hc => lt_irrefl a.val (hpa a hc)
    by_cases hb : e.memBars a = true
    · by_cases hio : e.ioremapFails a = true
      · simp only [mapBars, hb, if_true, hio, Prod.mk.injEq] at h
        obtain ⟨hi, hm, hl⟩ := h
        have hi2 : i = a := by
          cases hi; rfl
        rw [← hm, ← hl, hi2]
        refine ⟨List.mem_cons_self a rest, ?_, fun j _ => rfl⟩
        intro j hj
        exact Or.inl hj
      · simp only [mapBars, hb, if_true, hio, Bool.false_eq_true, if_false] at h
        obtain ⟨hmem, hchar, hpres⟩ := ih hpr _ _ _ _ _ h
        have hai : a.val < i.val := hpa i hmem
        refine ⟨List.mem_cons_of_mem a hmem, ?_, ?_⟩
        · intro j hj
          rcases hchar j hj with hup | hin
          · by_cases hja : j = a
            · right
              rw [hja]
              refine ⟨List.mem_cons_self a rest, hai, hb, ?_⟩
              rw [hpres a hanr]
              simp
            · left
              simpa [hja] using hup
          · right
            exact ⟨List.mem_cons_of_mem a hin.1, hin.2.1, hin.2.2.1, hin.2.2.2⟩
        · intro j hj
          have hjr : j ∉ rest := fun hc => hj (List.mem_cons_of_mem a hc)
          have hja : j ≠ a := fun hc => hj (hc ▸ List.mem_cons_self a rest)
          rw [hpres j hjr]
          simp [hja]
    · simp only [mapBars, hb, Bool.false_eq_true, if_false] at h
      obtain ⟨hmem, hchar, hpres⟩ := ih hpr _ _ _ _ _ h
      refine ⟨List.mem_cons_of_mem a hmem, ?_, ?_⟩
      · intro j hj
        rcases hchar j hj with hup | hin
        · exact Or.inl hup
        · right
          exact ⟨List.mem_cons_of_mem a hin.1, hin.2.1, hin.2.2.1, hin.2.2.2⟩
      · intro j hj
        have hjr : j ∉ rest := fun hc => hj (List.mem_cons_of_mem a hc)
        have hja : j ≠ a := fun hc => hj (hc ▸ List.mem_cons_self a rest)
        rw [hpres j hjr]
        simp [hja]

/-- If index i is selected and its ioremap fails while every earlier
selected index maps fine, the mapping loop breaks exactly at i. -/
theorem mapBars_firstFail (e : ProbeEnv) :
    ∀ (l : List (Fin 6)), l.Pairwise (fun a b : Fin 6 => a.val < b.val) →
    ∀ (m : Fin 6 → Bool) (lens : Fin 6 → Option Nat) (i : Fin 6),
    i ∈ l → e.memBars i = true → e.ioremapFails i = true →
    (∀ j : Fin 6, j ∈ l → j.val < i.val → e.memBars j = true →
      e.ioremapFails j = false) →
    ∃ m2 lens2, mapBars e m lens l = (some i, m2, lens2) := by
  intro l
  induction l with
  | nil => intro _ m lens i hi; simp at hi
  | cons a rest ih =>
    intro hp m lens i hi hbi hioi hfirst
    have hpa : ∀ b ∈ rest, a.val < b.val := (List.pairwise_cons.mp hp).1
    have hpr : rest.Pairwise (fun a b : Fin 6 => a.val < b.val) :=
      (List.pairwise_cons.mp hp).2
    by_cases hia : i = a
    · subst hia
      simp [mapBars, hbi, hioi]
    · have hir : i ∈ rest := by
        rcases List.mem_cons.mp hi with h | h
        · exact absurd h hia
        · exact h
      have hai : a.val < i.val := hpa i hir
      have hfirst2 : ∀ j : Fin 6, j ∈ rest → j.val < i.val → e.memBars j = true →
          e.ioremapFails j = false := fun j hj => hfirst j (List.mem_cons_of_mem a hj)
      by_cases hb : e.memBars a = true
      · have hioa : e.ioremapFails a = false :=
          hfirst a (List.mem_cons_self a rest) hai hb
        simp only [mapBars, hb, if_true, hioa, Bool.false_eq_true, if_false]
        exact ih hpr _ _ i hir hbi hioi hfirst2
      · simp only [mapBars, hb, Bool.false_eq_true, if_false]
        exact ih hpr _ _ i hir hbi hioi hfirst2

/-- If no selected index in the list has a failing ioremap, the mapping
loop completes. -/
theorem mapBars_noFail (e : ProbeEnv) :
    ∀ (l : List (Fin 6)) (m : Fin 6 → Bool) (lens : Fin 6 → Option Nat),
    (∀ j : Fin 6, j ∈ l → e.memBars j = true → e.ioremapFails j = false) →
    ∃ m2 lens2, mapBars e m lens l = (none, m2, lens2) := by
  intro l
  induction l with
  | nil => intro m lens _; exact ⟨m, lens, rfl⟩
  | cons a rest ih =>
    intro m lens hok
    have hok2 : ∀ j : Fin 6, j ∈ rest → e.memBars j = true →
        e.ioremapFails j = false := fun j hj => hok j (List.mem_cons_of_mem a hj)
    by_cases hb : e.memBars a = true
    · have hioa : e.ioremapFails a = false := hok a (List.mem_cons_self a rest) hb
      simp only [mapBars, hb, if_true, hioa, Bool.false_eq_true, if_false]
      exact ih _ _ hok2
    · simp only [mapBars, hb, Bool.false_eq_true, if_false]
      exact ih _ _ hok2

/-- The iounmap unwind loop clears exactly the visited indices whose
bar[j].len field holds a nonzero value. -/
theorem unmapIf_char (lens : Fin 6 → Option Nat) :
    ∀ (l : List (Fin 6)) (m : Fin 6 → Bool) (j : Fin 6),
    unmapIf lens m l j =
      if j ∈ l ∧ (lens j).getD 0 ≠ 0 then false else m j := by
  intro l
  induction l with
  | nil => intro m j; simp [unmapIf]
  | cons a rest ih =>
    intro m j
    simp only [unmapIf]
    rw [ih]
    by_cases hj : j = a
    · rw [hj]
      by_cases hz : (lens a).getD 0 ≠ 0
      · by_cases hr : a ∈ rest <;> simp [hz, hr]
      · by_cases hr : a ∈ rest <;> simp [hz, hr]
    · by_cases hr : j ∈ rest
      · by_cases hz : (lens j).getD 0 ≠ 0 <;>
          by_cases hza : (lens a).getD 0 ≠ 0 <;> simp [hz, hza, hr, hj]
      · by_cases hz : (lens j).getD 0 ≠ 0 <;>
          by_cases hza : (lens a).getD 0 ≠ 0 <;> simp [hz, hza, hr, hj]

/-- The device_destroy unwind loop clears exactly the visited indices whose
bar[j].len is nonzero. -/
theorem destroyIf_char (len : Fin 6 → Nat) :
    ∀ (l : List (Fin 6)) (p : Fin 6 → Bool) (j : Fin 6),
    destroyIf len p l j = if j ∈ l ∧ len j ≠ 0 then false else p j := by
  intro l
  induction l with
  | nil => intro p j; simp [destroyIf]
  | cons a rest ih =>
    intro p j
    simp only [destroyIf]
    rw [ih]
    by_cases hj : j = a
    · rw [hj]
      by_cases hz : len a ≠ 0
      · by_cases hr : a ∈ rest <;> simp [hz, hr]
      · by_cases hr : a ∈ rest <;> simp [hz, hr]
    · by_cases hr : j ∈ rest
      · by_cases hz : len j ≠ 0 <;> by_cases hza : len a ≠ 0 <;>
          simp [hz, hza, hr, hj]
      · by_cases hz : len j ≠ 0 <;> by_cases hza : len a ≠ 0 <;>
          simp [hz, hza, hr, hj]

/-- If the node-creation loop completes without a device_create failure, it
has published exactly the visited indices with nonzero length. -/
theorem createNodes_none_char (e : ProbeEnv) (len : Fin 6 → Nat) :
    ∀ (l : List (Fin 6)) (p p2 : Fin 6 → Bool),
    createNodes e len p l = (none, p2) →
    ∀ j, p2 j = true ↔ (p j = true ∨ (j ∈ l ∧ len j ≠ 0)) := by
  intro l
  induction l with
  | nil =>
    intro p p2 h j
    simp only [createNodes, Prod.mk.injEq] at h
    rw [← h.2]
    simp
  | cons a rest ih =>
    intro p p2 h j
    simp only [createNodes] at h
    by_cases hz : len a ≠ 0
    · rw [if_pos hz] at h
      by_cases hc : e.devCreateFails a = true
      · rw [if_pos hc] at h
        simp at h
      · rw [if_neg hc] at h
        rw [ih _ _ h j]
        by_cases hj : j = a
        · rw [hj]
          simp [hz]
        · simp [hj, List.mem_cons]
    · rw [if_neg hz] at h
      rw [ih _ _ h j]
      simp only [ne_eq, Decidable.not_not] at hz
      by_cases hj : j = a
      · rw [hj]
        simp [hz]
      · simp [hj, List.mem_cons]

/-- If the node-creation loop over a strictly increasing index list breaks
with a device_create failure at index i, every node it has published is at
an index below i with nonzero length. -/
theorem createNodes_some_char (e : ProbeEnv) (len : Fin 6 → Nat) :
    ∀ (l : List (Fin 6)), l.Pairwise (fun a b : Fin 6 => a.val < b.val) →
    ∀ (p : Fin 6 → Bool) (i : Fin 6) (p2 : Fin 6 → Bool),
    createNodes e len p l = (some i, p2) →
    i ∈ l ∧
    (∀ j, p2 j = true →
      (p j = true ∨ (j ∈ l ∧ j.val < i.val ∧ len j ≠ 0))) := by
  intro l
  induction l with
  | nil =>
    intro _ p i p2 h
    simp [createNodes] at h
  | cons a rest ih =>
    intro hp p i p2 h
    have hpa : ∀ b ∈ rest, a.val < b.val := (List.pairwise_cons.mp hp).1
    have hpr : rest.Pairwise (fun a b : Fin 6 => a.val < b.val) :=
      (List.pairwise_cons.mp hp).2
    simp only [createNodes] at h
    by_cases hz : len a ≠ 0
    · rw [if_pos hz] at h
      by_cases hc : e.devCreateFails a = true
      · rw [if_pos hc] at h
        simp only [Prod.mk.injEq] at h
        obtain ⟨hi, hpp⟩ := h
        have hi2 : i = a := by cases hi; rfl
        rw [← hpp, hi2]
        refine ⟨List.mem_cons_self a rest, ?_⟩
        intro j hj
        exact Or.inl hj
      · rw [if_neg hc] at h
        obtain ⟨hmem, hchar⟩ := ih hpr _ _ _ h
        have hai : a.val < i.val := hpa i hmem
        refine ⟨List.mem_cons_of_mem a hmem, ?_⟩
        intro j hj
        rcases hchar j hj with hup | hin
        · by_cases hja : j = a
          · right
            rw [hja]
            exact ⟨List.mem_cons_self a rest, hai, hz⟩
          · left
            simpa [hja] using hup
        · right
          exact ⟨List.mem_cons_of_mem a hin.1, hin.2.1, hin.2.2⟩
    · rw [if_neg hz] at h
      obtain ⟨hmem, hchar⟩ := ih hpr _ _ _ h
      refine ⟨List.mem_cons_of_mem a hmem, ?_⟩
      intro j hj
      rcases hchar j hj with hup | hin
      · exact Or.inl hup
      · right
        exact ⟨List.mem_cons_of_mem a hin.1, hin.2.1, hin.2.2⟩

/-- If index i has nonzero length and a failing device_create while every
earlier nonzero index publishes fine, the node-creation loop breaks
exactly at i. -/
theorem createNodes_firstFail (e : ProbeEnv) (len : Fin 6 → Nat) :
    ∀ (l : List (Fin 6)), l.Pairwise (fun a b : Fin 6 => a.val < b.val) →
    ∀ (p : Fin 6 → Bool) (i : Fin 6),
    i ∈ l → len i ≠ 0 → e.devCreateFails i = true →
    (∀ j : Fin 6, j ∈ l → j.val < i.val → len j ≠ 0 →
      e.devCreateFails j = false) →
    ∃ p2, createNodes e len p l = (some i, p2) := by
  intro l
  induction l with
  | nil => intro _ p i hi; simp at hi
  | cons a rest ih =>
    intro hp p i hi hzi hci hfirst
    have hpa : ∀ b ∈ rest, a.val < b.val := (List.pairwise_cons.mp hp).1
    have hpr : rest.Pairwise (fun a b : Fin 6 => a.val < b.val) :=
      (List.pairwise_cons.mp hp).2
    by_cases hia : i = a
    · subst hia
      refine ⟨p, ?_⟩
      simp only [createNodes]
      rw [if_pos hzi, if_pos hci]
    · have hir : i ∈ rest := by
        rcases List.mem_cons.mp hi with h | h
        · exact absurd h hia
        · exact h
      have hai : a.val < i.val := hpa i hir
      have hfirst2 : ∀ j : Fin 6, j ∈ rest → j.val < i.val → len j ≠ 0 →
          e.devCreateFails j = false := fun j hj => hfirst j (List.mem_cons_of_mem a hj)
      by_cases hz : len a ≠ 0
      · have hca : e.devCreateFails a = false :=
          hfirst a (List.mem_cons_self a rest) hai hz
        obtain ⟨p2, hp2⟩ := ih hpr (fun j => if j = a then true else p j) i hir hzi hci hfirst2
        refine ⟨p2, ?_⟩
        simp only [createNodes]
        rw [if_pos hz, if_neg (by simp [hca]), hp2]
      · obtain ⟨p2, hp2⟩ := ih hpr p i hir hzi hci hfirst2
        refine ⟨p2, ?_⟩
        simp only [createNodes]
        rw [if_neg hz, hp2]

/-- If no nonzero index in the list has a failing device_create, the
node-creation loop completes. -/
theorem createNodes_noFail (e : ProbeEnv) (len : Fin 6 → Nat) :
    ∀ (l : List (Fin 6)) (p : Fin 6 → Bool),
    (∀ j : Fin 6, j ∈ l → len j ≠ 0 → e.devCreateFails j = false) →
    ∃ p2, createNodes e len p l = (none, p2) := by
  intro l
  induction l with
  | nil => intro p _; exact ⟨p, rfl⟩
  | cons a rest ih =>
    intro p hok
    have hok2 : ∀ j : Fin 6, j ∈ rest → len j ≠ 0 → e.devCreateFails j = false :=
      fun j hj => hok j (List.mem_cons_of_mem a hj)
    by_cases hz : len a ≠ 0
    · have hca : e.devCreateFails a = false := hok a (List.mem_cons_self a rest) hz
      obtain ⟨p2, hp2⟩ := ih (fun j => if j = a then true else p j) hok2
      refine ⟨p2, ?_⟩
      simp only [createNodes]
      rw [if_pos hz, if_neg (by simp [hca]), hp2]
    · obtain ⟨p2, hp2⟩ := ih p hok2
      refine ⟨p2, ?_⟩
      simp only [createNodes]
      rw [if_neg hz, hp2]

/-- After the iounmap loop of pci_remove, a mapping flag is cleared for
every visited index with nonzero recorded length and untouched otherwise. -/
theorem unmapAll_mapped (len : Fin 6 → Nat) :
    ∀ (l : List (Fin 6)) (m : Fin 6 → Bool) (j : Fin 6),
    (unmapAll len m l).1 j = if j ∈ l ∧ len j ≠ 0 then false else m j := by
  intro l
  induction l with
  | nil => intro m j; simp [unmapAll]
  | cons a rest ih =>
    intro m j
    simp only [unmapAll]
    by_cases hz : len a ≠ 0
    · rw [if_pos hz]
      simp only [ih]
      by_cases hj : j = a
      · rw [hj]
        by_cases hr : a ∈ rest <;> simp [hz, hr]
      · by_cases hr : j ∈ rest <;> simp [hr, hj]
    · rw [if_neg hz]
      rw [ih]
      simp only [ne_eq, Decidable.not_not] at hz
      by_cases hj : j = a
      · rw [hj]
        by_cases hr : a ∈ rest <;> simp [hz, hr]
      · by_cases hr : j ∈ rest <;> simp [hr, hj]

/-- The iounmap loop of pci_remove emits an iounmap action for exactly the
visited indices with nonzero recorded length, live mapping or not. -/
theorem unmapAll_acts (len : Fin 6 → Nat) :
    ∀ (l : List (Fin 6)) (m : Fin 6 → Bool) (i : Fin 6),
    Act.iounmap i ∈ (unmapAll len m l).2 ↔ (i ∈ l ∧ len i ≠ 0) := by
  intro l
  induction l with
  | nil => intro m i; simp [unmapAll]
  | cons a rest ih =>
    intro m i
    simp only [unmapAll]
    by_cases hz : len a ≠ 0
    · rw [if_pos hz]
      simp only [List.mem_cons, Act.iounmap.injEq, ih]
      constructor
      · rintro (h | ⟨h1, h2⟩)
        · exact ⟨Or.inl h, by rw [h]; exact hz⟩
        · exact ⟨Or.inr h1, h2⟩
      · rintro ⟨h1 | h1, h2⟩
        · exact Or.inl h1
        · exact Or.inr ⟨h1, h2⟩
    · rw [if_neg hz]
      rw [ih]
      simp only [ne_eq, Decidable.not_not] at hz
      constructor
      · rintro ⟨h1, h2⟩
        exact ⟨List.mem_cons_of_mem a h1, h2⟩
      · rintro ⟨h1, h2⟩
        rcases List.mem_cons.mp h1 with h | h
        · exact absurd (h ▸ hz) h2
        · exact ⟨h, h2⟩

/-- After the device_destroy loop of pci_remove, a published flag is cleared
for every visited index with nonzero recorded length and untouched
otherwise. -/
theorem destroyAll_published (len : Fin 6 → Nat) :
    ∀ (l : List (Fin 6)) (p : Fin 6 → Bool) (j : Fin 6),
    (destroyAll len p l).1 j = if j ∈ l ∧ len j ≠ 0 then false else p j := by
  intro l
  induction l with
  | nil => intro p j; simp [destroyAll]
  | cons a rest ih =>
    intro p j
    simp only [destroyAll]
    by_cases hz : len a ≠ 0
    · rw [if_pos hz]
      simp only [ih]
      by_cases hj : j = a
      · rw [hj]
        by_cases hr : a ∈ rest <;> simp [hz, hr]
      · by_cases hr : j ∈ rest <;> simp [hr, hj]
    · rw [if_neg hz]
      rw [ih]
      simp only [ne_eq, Decidable.not_not] at hz
      by_cases hj : j = a
      · rw [hj]
        by_cases hr : a ∈ rest <;> simp [hz, hr]
      · by_cases hr : j ∈ rest <;> simp [hr, hj]

/-- dev_seek succeeds when the target is aligned and within bounds. -/
theorem dev_seek_success (pchar : PChar) (num : Fin 6) (s : Session)
    (offset whence : Int)
    (h1 : (seekTarget s.pos offset whence).tmod 4 = 0)
    (h2 : 0 ≤ seekTarget s.pos offset whence)
    (h3 : seekTarget s.pos offset whence ≤ lenMinus4 (pchar.barLen num)) :
    dev_seek pchar num s offset whence =
      (seekTarget s.pos offset whence,
       { pos := seekTarget s.pos offset whence }) := by
  simp only [dev_seek]
  rw [if_neg (by simp [h1]), if_neg (by push_neg; omega)]

/-- dev_seek fails with -EINVAL and leaves the session untouched when the
target is misaligned, negative, or beyond bar len - 4. -/
theorem dev_seek_fail (pchar : PChar) (num : Fin 6) (s : Session)
    (offset whence : Int)
    (h : (seekTarget s.pos offset whence).tmod 4 ≠ 0 ∨
         seekTarget s.pos offset whence < 0 ∨
         seekTarget s.pos offset whence > lenMinus4 (pchar.barLen num)) :
    dev_seek pchar num s offset whence = (- EINVAL, s) := by
  simp only [dev_seek]
  by_cases h1 : (seekTarget s.pos offset whence).tmod 4 ≠ 0
  · rw [if_pos h1]
  · rw [if_neg h1]
    rcases h with h | h | h
    · exact absurd h h1
    · rw [if_pos (Or.inl h)]
    · rw [if_pos (Or.inr h)]

/-- C2: for a region of length L (a multiple of 4, at least 4, fitting
resource_size_t), seek(L-4, Start) succeeds while seek(L, Start) and
seek(L-3, Start) fail with -EINVAL leaving the position unchanged; and in
general a seek (Start or Current) succeeds exactly when the resulting
position is a multiple of 4 and lies in [0, L-4]. -/
theorem seek_bounds_characterization (pchar : PChar) (num : Fin 6) (s : Session)
    (L : Nat) (offset whence : Int)
    (hL : pchar.barLen num = L) (h4 : L % 4 = 0) (hge : 4 ≤ L)
    (hlt : L < 2 ^ 64) (hs : 0 ≤ s.pos) (_hw : whence = 0 ∨ whence = 1) :
    dev_seek pchar num s ((L : Int) - 4) 0 =
      ((L : Int) - 4, { pos := (L : Int) - 4 }) ∧
    dev_seek pchar num s (L : Int) 0 = (- EINVAL, s) ∧
    dev_seek pchar num s ((L : Int) - 3) 0 = (- EINVAL, s) ∧
    (dev_seek pchar num s offset whence =
        (seekTarget s.pos offset whence,
         { pos := seekTarget s.pos offset whence }) ↔
      ((4 : Int) ∣ seekTarget s.pos offset whence ∧
        0 ≤ seekTarget s.pos offset whence ∧
        seekTarget s.pos offset whence ≤ (L : Int) - 4)) := by
  have hlm : lenMinus4 (pchar.barLen num) = (L : Int) - 4 := by
    rw [hL]; exact lenMinus4_eq L hge hlt
  have hdvdL : (4 : Int) ∣ (L : Int) := by
    obtain ⟨k, hk⟩ := Nat.dvd_of_mod_eq_zero h4
    exact ⟨(k : Int), by omega⟩
  refine ⟨?_, ?_, ?_, ?_⟩
  · have hst : seekTarget s.pos ((L : Int) - 4) 0 = (L : Int) - 4 := by
      simp [seekTarget]
    have := dev_seek_success pchar num s ((L : Int) - 4) 0
      (by rw [hst]; exact (tmod_four_eq_zero_iff_dvd _).mpr (by omega))
      (by rw [hst]; omega) (by rw [hst, hlm])
    rwa [hst] at this
  · have hst : seekTarget s.pos (L : Int) 0 = (L : Int) := by
      simp [seekTarget]
    exact dev_seek_fail pchar num s _ 0 (by rw [hst, hlm]; right; right; omega)
  · have hst : seekTarget s.pos ((L : Int) - 3) 0 = (L : Int) - 3 := by
      simp [seekTarget]
    refine dev_seek_fail pchar num s _ 0 ?_
    rw [hst]
    left
    rw [Ne, tmod_four_eq_zero_iff_dvd]
    omega
  · constructor
    · intro heq
      by_cases h1 : (seekTarget s.pos offset whence).tmod 4 ≠ 0
      · rw [dev_seek_fail pchar num s offset whence (Or.inl h1)] at heq
        simp only [Prod.mk.injEq, Session.mk.injEq] at heq
        obtain ⟨he1, he2⟩ := heq
        have hp : s.pos = seekTarget s.pos offset whence := by
          cases s
          simpa using he2
        simp only [EINVAL] at he1
        omega
      · rw [Decidable.not_not] at h1
        by_cases h2 : seekTarget s.pos offset whence < 0 ∨
            seekTarget s.pos offset whence > lenMinus4 (pchar.barLen num)
        · rw [dev_seek_fail pchar num s offset whence (Or.inr h2)] at heq
          simp only [Prod.mk.injEq, Session.mk.injEq] at heq
          obtain ⟨he1, he2⟩ := heq
          have hp : s.pos = seekTarget s.pos offset whence := by
            cases s
            simpa using he2
          simp only [EINVAL] at he1
          omega
        · push_neg at h2
          rw [hlm] at h2
          exact ⟨(tmod_four_eq_zero_iff_dvd _).mp h1, h2.1, h2.2⟩
    · rintro ⟨hd, h0, hb⟩
      exact dev_seek_success pchar num s offset whence
        ((tmod_four_eq_zero_iff_dvd _).mpr hd) h0 (by rw [hlm]; exact hb)

/-- C2 witness: on a 16-byte region, seek(12, Start) succeeds, seek(16)
and seek(13) fail leaving the position at 0, and seek(8, Start) succeeds
exactly because 8 is aligned and at most 12. -/
theorem seek_bounds_characterization_witness :
    dev_seek pcharEx 0 { pos := 0 } (((16 : Nat) : Int) - 4) 0 =
      (((16 : Nat) : Int) - 4, { pos := ((16 : Nat) : Int) - 4 }) ∧
    dev_seek pcharEx 0 { pos := 0 } ((16 : Nat) : Int) 0 = (- EINVAL, { pos := 0 }) ∧
    dev_seek pcharEx 0 { pos := 0 } (((16 : Nat) : Int) - 3) 0 =
      (- EINVAL, { pos := 0 }) ∧
    (dev_seek pcharEx 0 { pos := 0 } 8 0 =
        (seekTarget (Session.pos { pos := 0 }) 8 0,
         { pos := seekTarget (Session.pos { pos := 0 }) 8 0 }) ↔
      ((4 : Int) ∣ seekTarget (Session.pos { pos := 0 }) 8 0 ∧
        0 ≤ seekTarget (Session.pos { pos := 0 }) 8 0 ∧
        seekTarget (Session.pos { pos := 0 }) 8 0 ≤ ((16 : Nat) : Int) - 4)) :=
  seek_bounds_characterization pcharEx 0 { pos := 0 } 16 8 0 (by decide) (by decide)
    (by decide) (by decide) (by decide) (Or.inl rfl)

/-- C5: a seek whose target position (absolute for Start, current + delta
for Current) is not a multiple of 4, is negative, or exceeds length - 4
returns -EINVAL and leaves the session position unchanged. -/
theorem seek_invalid_rejected (pchar : PChar) (num : Fin 6) (s : Session)
    (offset whence : Int)
    (h : ¬ ((4 : Int) ∣ seekTarget s.pos offset whence) ∨
         seekTarget s.pos offset whence < 0 ∨
         (4 ≤ pchar.barLen num ∧ pchar.barLen num < 2 ^ 64 ∧
           seekTarget s.pos offset whence > (pchar.barLen num : Int) - 4)) :
    dev_seek pchar num s offset whence = (- EINVAL, s) := by
  refine dev_seek_fail pchar num s offset whence ?_
  rcases h with h | h | ⟨h1, h2, h3⟩
  · left
    rw [Ne, tmod_four_eq_zero_iff_dvd]
    exact h
  · right; left; exact h
  · right; right
    rwa [lenMinus4_eq (pchar.barLen num) h1 h2]

/-- C5 witness: on the 16-byte region, seek(6, Start), seek(-4, Start) and
seek(16, Current) from position 0 all return -EINVAL with the position
still 0. -/
theorem seek_invalid_rejected_witness :
    dev_seek pcharEx 0 { pos := 0 } 6 0 = (- EINVAL, { pos := 0 }) ∧
    dev_seek pcharEx 0 { pos := 0 } (-4) 0 = (- EINVAL, { pos := 0 }) ∧
    dev_seek pcharEx 0 { pos := 0 } 16 1 = (- EINVAL, { pos := 0 }) :=
  ⟨seek_invalid_rejected pcharEx 0 { pos := 0 } 6 0 (Or.inl (by decide)),
   seek_invalid_rejected pcharEx 0 { pos := 0 } (-4) 0 (Or.inr (Or.inl (by decide))),
   seek_invalid_rejected pcharEx 0 { pos := 0 } 16 1
     (Or.inr (Or.inr (by refine ⟨by decide, by decide, by decide⟩)))⟩

/-- C7: dev_open fails with -ENXIO for minor numbers above 5, fails with
-EIO for an in-range region of length 0, and otherwise succeeds with the
session position 0. -/
theorem open_error_cases (pchar : PChar) (num : Nat) :
    (5 < num → dev_open pchar num = Except.error (- ENXIO_CODE)) ∧
    (∀ h : num < 6, pchar.barLen ⟨num, h⟩ = 0 →
      dev_open pchar num = Except.error (- EIO_CODE)) ∧
    (∀ h : num < 6, 0 < pchar.barLen ⟨num, h⟩ →
      dev_open pchar num = Except.ok { pos := 0 }) := by
  refine ⟨?_, ?_, ?_⟩
  · intro h
    simp [dev_open, h]
  · intro h hz
    have h5 : ¬ 5 < num := by omega
    simp only [dev_open, dif_neg h5]
    rw [if_pos hz]
  · intro h hpos
    have h5 : ¬ 5 < num := by omega
    simp only [dev_open, dif_neg h5]
    rw [if_neg (by omega)]

/-- C7 witness: on pcharEx, opening minor 7 gives -ENXIO, minor 1 (length
0) gives -EIO, and minor 0 (length 16) succeeds at position 0. -/
theorem open_error_cases_witness :
    dev_open pcharEx 7 = Except.error (- ENXIO_CODE) ∧
    dev_open pcharEx 1 = Except.error (- EIO_CODE) ∧
    dev_open pcharEx 0 = Except.ok { pos := 0 } :=
  ⟨(open_error_cases pcharEx 7).1 (by decide),
   (open_error_cases pcharEx 1).2.1 (by decide) (by decide),
   (open_error_cases pcharEx 0).2.2 (by decide) (by decide)⟩

/-- C1 counterexample: on a 16-byte region at position 0, read(count=16)
succeeds returning 16 bytes, yet the position afterwards is 0, not 16, and
the four words are all loaded from base + 0 rather than from base + 0,
base + 4, base + 8, base + 12. -/
theorem read_does_not_advance_cx :
    (dev_read pcharEx 0 memEx 16 0 cfNone).ret = 16 ∧
    (dev_read pcharEx 0 memEx 16 0 cfNone).pposAfter = 0 ∧
    (dev_read pcharEx 0 memEx 16 0 cfNone).pposAfter ≠ 0 + 16 ∧
    (dev_read pcharEx 0 memEx 16 0 cfNone).loads = [0, 0, 0, 0] ∧
    (dev_read pcharEx 0 memEx 16 0 cfNone).loads ≠ [0, 4, 8, 12] := by
  decide

/-- C1 amended: a fault-free read whose positive count is a multiple of 4
and whose transfer lies in bounds returns count bytes and delivers
count / 4 words, but every one of them is loaded from the single address
base + position (the loop never advances the offset), and the session
position after the call still equals the position before the call. -/
theorem read_transfers_fixed_offset (pchar : PChar) (num : Fin 6)
    (mem : Nat → Nat) (count : Nat) (ppos : Int) (cf : Nat → Bool) (L : Nat)
    (_hL : pchar.barLen num = L) (hc4 : count % 4 = 0) (hcpos : 0 < count)
    (hpos : 0 ≤ ppos) (hlt : ppos < 2 ^ 32) (_hbound : ppos.toNat + count ≤ L)
    (hnf : ∀ k, k < count / 4 → cf k = false) :
    (dev_read pchar num mem count ppos cf).ret = (count : Int) ∧
    (dev_read pchar num mem count ppos cf).out =
      List.replicate (count / 4) (mem (pchar.barAddr num + ppos.toNat) % 2 ^ 32) ∧
    (dev_read pchar num mem count ppos cf).loads =
      List.replicate (count / 4) (pchar.barAddr num + ppos.toNat) ∧
    (dev_read pchar num mem count ppos cf).pposAfter = ppos := by
  have hoff : (ppos % (2 ^ 32 : Int)).toNat = ppos.toNat := by
    rw [Int.emod_eq_of_lt hpos hlt]
  have hloop := readLoop_nofault mem (pchar.barAddr num + (ppos % (2 ^ 32 : Int)).toNat)
    cf (count / 4) 0 (by intro k hk; simpa using hnf k hk)
  simp only [dev_read, hloop]
  rw [if_neg (by omega)]
  simp only [hoff]
  refine ⟨?_, trivial, trivial, trivial⟩
  rw [if_pos (show 4 * (count / 4) ≠ 0 by omega)]
  have h44 : 4 * (count / 4) = count := by omega
  rw [h44]

/-- C1 amended witness: reading 8 bytes at position 4 of the 16-byte region
returns 8 and both words come from base + 4; the position stays 4. -/
theorem read_transfers_fixed_offset_witness :
    (dev_read pcharEx 0 memEx 8 4 cfNone).ret = ((8 : Nat) : Int) ∧
    (dev_read pcharEx 0 memEx 8 4 cfNone).out =
      List.replicate (8 / 4) (memEx (pcharEx.barAddr 0 + (4 : Int).toNat) % 2 ^ 32) ∧
    (dev_read pcharEx 0 memEx 8 4 cfNone).loads =
      List.replicate (8 / 4) (pcharEx.barAddr 0 + (4 : Int).toNat) ∧
    (dev_read pcharEx 0 memEx 8 4 cfNone).pposAfter = 4 :=
  read_transfers_fixed_offset pcharEx 0 memEx 8 4 cfNone 16 (by decide) (by decide)
    (by decide) (by decide) (by decide) (by decide) (fun k _ => rfl)

/-- C6: if the first caller-buffer fault of a read or write happens at word
index f (0-based, within the requested count/4 words), the call returns
4f — the bytes already transferred — when f > 0, and returns -EFAULT when
the very first word faults. -/
theorem transfer_partial_progress (pchar : PChar) (num : Fin 6) (mem : Nat → Nat)
    (count : Nat) (ppos : Int) (ubuf : Nat → Nat) (cf : Nat → Bool) (f : Nat)
    (hc4 : count % 4 = 0) (hf : f < count / 4)
    (hbefore : ∀ k, k < f → cf k = false) (hfault : cf f = true) :
    (dev_read pchar num mem count ppos cf).ret =
      (if f = 0 then - EFAULT else ((4 * f : Nat) : Int)) ∧
    (dev_write pchar num mem count ppos ubuf cf).ret =
      (if f = 0 then - EFAULT else ((4 * f : Nat) : Int)) := by
  have hr := readLoop_fault mem (pchar.barAddr num + (ppos % (2 ^ 32 : Int)).toNat)
    cf f (count / 4) 0 hf (by intro k hk; simpa using hbefore k hk)
    (by simpa using hfault)
  have hw2 := writeLoop_fault (pchar.barAddr num + (ppos % (2 ^ 32 : Int)).toNat)
    ubuf cf f (count / 4) 0 mem hf (by intro k hk; simpa using hbefore k hk)
    (by simpa using hfault)
  constructor
  · simp only [dev_read]
    rw [if_neg (by omega)]
    rw [hr.1, hr.2]
    by_cases hf0 : f = 0
    · subst hf0
      simp
    · rw [if_pos (by omega), if_neg hf0]
  · simp only [dev_write]
    rw [if_neg (by omega)]
    rw [hw2.1, hw2.2]
    by_cases hf0 : f = 0
    · subst hf0
      simp
    · rw [if_pos (by omega), if_neg hf0]

/-- C6 witness: reading or writing 12 bytes with a fault at word index 1
returns 4 bytes of progress rather than an error. -/
theorem transfer_partial_progress_witness :
    (dev_read pcharEx 0 memEx 12 0 cfOne).ret = ((4 * 1 : Nat) : Int) ∧
    (dev_write pcharEx 0 memEx 12 0 memEx cfOne).ret = ((4 * 1 : Nat) : Int) :=
  transfer_partial_progress pcharEx 0 memEx 12 0 memEx cfOne 1 (by decide)
    (by decide) (by decide) (by decide)

/-- C8: writing one word at a valid aligned offset k and immediately
reading 4 bytes at the same offset (no faults either way) returns exactly
the word that was written. -/
theorem write_read_roundtrip (pchar : PChar) (num : Fin 6) (mem : Nat → Nat)
    (k w : Nat) (ubuf : Nat → Nat) (cfW cfR : Nat → Bool)
    (_hk4 : k % 4 = 0) (_hkb : k + 4 ≤ pchar.barLen num) (hw : w < 2 ^ 32)
    (hu : ubuf 0 = w) (hcw : cfW 0 = false) (hcr : cfR 0 = false) :
    (dev_write pchar num mem 4 (k : Nat) ubuf cfW).ret = 4 ∧
    (dev_read pchar num (dev_write pchar num mem 4 (k : Nat) ubuf cfW).memAfter 4
        (k : Nat) cfR).ret = 4 ∧
    (dev_read pchar num (dev_write pchar num mem 4 (k : Nat) ubuf cfW).memAfter 4
        (k : Nat) cfR).out = [w] := by
  simp [dev_write, dev_read, writeLoop, readLoop, hcw, hcr, hu, Nat.mod_eq_of_lt hw]
  omega

/-- C8 witness: writing word 5 at offset 8 of the 16-byte region and
reading 4 bytes back at offset 8 returns [5]. -/
theorem write_read_roundtrip_witness :
    (dev_write pcharEx 0 memEx 4 ((8 : Nat) : Nat) (fun _ => 5) cfNone).ret = 4 ∧
    (dev_read pcharEx 0
        (dev_write pcharEx 0 memEx 4 ((8 : Nat) : Nat) (fun _ => 5) cfNone).memAfter 4
        ((8 : Nat) : Nat) cfNone).ret = 4 ∧
    (dev_read pcharEx 0
        (dev_write pcharEx 0 memEx 4 ((8 : Nat) : Nat) (fun _ => 5) cfNone).memAfter 4
        ((8 : Nat) : Nat) cfNone).out = [5] :=
  write_read_roundtrip pcharEx 0 memEx 8 5 (fun _ => 5) cfNone cfNone (by decide)
    (by decide) (by decide) rfl rfl rfl

/-- C10: for any read or write — success, partial transfer, or error — the
session position *ppos after the call equals its value before, the device
record is not modified, every readl load goes to the single address
base + position, and every writel store goes to that same single address. -/
theorem rw_frame_effects (pchar : PChar) (num : Fin 6) (mem : Nat → Nat)
    (count : Nat) (ppos : Int) (ubuf : Nat → Nat) (cfR cfW : Nat → Bool)
    (hpos : 0 ≤ ppos) (hlt : ppos < 2 ^ 32) :
    (dev_read pchar num mem count ppos cfR).pposAfter = ppos ∧
    (dev_read pchar num mem count ppos cfR).pcharAfter = pchar ∧
    (dev_read pchar num mem count ppos cfR).loads =
      List.replicate (dev_read pchar num mem count ppos cfR).loads.length
        (pchar.barAddr num + ppos.toNat) ∧
    (dev_write pchar num mem count ppos ubuf cfW).pposAfter = ppos ∧
    (dev_write pchar num mem count ppos ubuf cfW).pcharAfter = pchar ∧
    (dev_write pchar num mem count ppos ubuf cfW).stores.map Prod.fst =
      List.replicate (dev_write pchar num mem count ppos ubuf cfW).stores.length
        (pchar.barAddr num + ppos.toNat) := by
  have hoff : (ppos % (2 ^ 32 : Int)).toNat = ppos.toNat := by
    rw [Int.emod_eq_of_lt hpos hlt]
  refine ⟨?_, ?_, ?_, ?_, ?_, ?_⟩
  · simp only [dev_read]
    split <;> rfl
  · simp only [dev_read]
    split <;> rfl
  · simp only [dev_read]
    split
    · rfl
    · rw [List.eq_replicate_iff]
      refine ⟨rfl, ?_⟩
      intro b hb
      have hba := readLoop_loads mem
        (pchar.barAddr num + (ppos % (2 ^ 32 : Int)).toNat) cfR (count / 4) 0 b hb
      rw [hba, hoff]
  · simp only [dev_write]
    split <;> rfl
  · simp only [dev_write]
    split <;> rfl
  · simp only [dev_write]
    split
    · rfl
    · rw [List.eq_replicate_iff]
      refine ⟨by simp, ?_⟩
      intro b hb
      obtain ⟨p, hp, hpb⟩ := List.mem_map.mp hb
      have hba := writeLoop_stores
        (pchar.barAddr num + (ppos % (2 ^ 32 : Int)).toNat) ubuf cfW (count / 4) 0
        mem p hp
      rw [← hpb, hba, hoff]

/-- C10 witness: a partially faulting 8-byte read and write at position 0
leave the position at 0, leave the record unchanged, and touch only
base + 0. -/
theorem rw_frame_effects_witness :
    (dev_read pcharEx 0 memEx 8 0 cfOne).pposAfter = 0 ∧
    (dev_read pcharEx 0 memEx 8 0 cfOne).pcharAfter = pcharEx ∧
    (dev_read pcharEx 0 memEx 8 0 cfOne).loads =
      List.replicate (dev_read pcharEx 0 memEx 8 0 cfOne).loads.length
        (pcharEx.barAddr 0 + (0 : Int).toNat) ∧
    (dev_write pcharEx 0 memEx 8 0 memEx cfOne).pposAfter = 0 ∧
    (dev_write pcharEx 0 memEx 8 0 memEx cfOne).pcharAfter = pcharEx ∧
    (dev_write pcharEx 0 memEx 8 0 memEx cfOne).stores.map Prod.fst =
      List.replicate (dev_write pcharEx 0 memEx 8 0 memEx cfOne).stores.length
        (pcharEx.barAddr 0 + (0 : Int).toNat) :=
  rw_frame_effects pcharEx 0 memEx 8 0 memEx cfOne cfOne (by decide) (by decide)

/-- C3: when attach fails at the mapping step (first failing selected index
i) or at the publication step (first failing nonzero index i), pci_probe
fails all-or-nothing — every mapping made in this call is unmapped, every
node already published is destroyed, the requested regions are released,
the device is disabled, the record is freed and no drvdata is published. -/
theorem probe_failure_cleanup (e : ProbeEnv) (i j : Fin 6)
    (hlen : ∀ k, e.memBars k = true → 0 < e.resLen k)
    (hk : e.kmallocFails = false) (he : e.enableFails = false)
    (hr : e.requestFails = false) :
    ((e.memBars i = true ∧ e.ioremapFails i = true ∧
        (∀ k : Fin 6, k.val < i.val → e.memBars k = true →
          e.ioremapFails k = false)) →
      ((pci_probe e).1 = false ∧ (pci_probe e).2.mapped j = false ∧
        (pci_probe e).2.published j = false ∧
        (pci_probe e).2.regionsHeld = false ∧
        (pci_probe e).2.deviceEnabled = false ∧
        (pci_probe e).2.recordLive = false ∧
        (pci_probe e).2.drvdata = none)) ∧
    ((e.chrdevFails = false ∧ e.cdevAddFails = false ∧
        (∀ k, e.memBars k = true → e.ioremapFails k = false) ∧
        e.memBars i = true ∧ e.devCreateFails i = true ∧
        (∀ k : Fin 6, k.val < i.val → e.memBars k = true →
          e.devCreateFails k = false)) →
      ((pci_probe e).1 = false ∧ (pci_probe e).2.mapped j = false ∧
        (pci_probe e).2.published j = false ∧
        (pci_probe e).2.regionsHeld = false ∧
        (pci_probe e).2.deviceEnabled = false ∧
        (pci_probe e).2.recordLive = false ∧
        (pci_probe e).2.drvdata = none)) := by
  constructor
  · rintro ⟨hbi, hioi, hfirst⟩
    obtain ⟨m2, lens2, hmb⟩ := mapBars_firstFail e idxList idxList_pairwise
      (fun _ => false) (fun _ => none) i (mem_idxList i) hbi hioi
      (fun k _ hklt hkb => hfirst k hklt hkb)
    have hchar := mapBars_some_char e idxList idxList_pairwise
      (fun _ => false) (fun _ => none) i m2 lens2 hmb
    have hmapped : unmapIf lens2 m2 (revBelow i) j = false := by
      rw [unmapIf_char]
      by_cases hc : j ∈ revBelow i ∧ (lens2 j).getD 0 ≠ 0
      · rw [if_pos hc]
      · rw [if_neg hc]
        by_cases hm2 : m2 j = true
        · rcases hchar.2.1 j hm2 with hfalse | ⟨-, hjlt, hjb, hjlens⟩
          · exact absurd hfalse (by simp)
          · exfalso
            apply hc
            refine ⟨(mem_revBelow i j).mpr hjlt, ?_⟩
            rw [hjlens]
            have := hlen j hjb
            simp only [Option.getD_some]
            omega
        · simpa using hm2
    simp [pci_probe, hk, he, hr, hmb, initState, hmapped]
  · rintro ⟨hch, hcd, hiok, hbi, hdci, hfirst⟩
    obtain ⟨m2, lens2, hmb⟩ := mapBars_noFail e idxList (fun _ => false)
      (fun _ => none) (fun k _ hkb => hiok k hkb)
    have hchar := mapBars_none_char e idxList (fun _ => false) (fun _ => none)
      m2 lens2 hmb
    have hlens : ∀ k : Fin 6, lens2 k =
        some (if e.memBars k then e.resLen k else 0) := by
      intro k
      rw [hchar.2 k, if_pos (mem_idxList k)]
    have hlenz : ∀ k : Fin 6, (lens2 k).getD 0 ≠ 0 ↔ e.memBars k = true := by
      intro k
      rw [hlens k]
      by_cases hkb : e.memBars k = true
      · have := hlen k hkb
        simp [hkb]
        omega
      · simp [hkb]
    obtain ⟨p2, hcn⟩ := createNodes_firstFail e (fun k => (lens2 k).getD 0)
      idxList idxList_pairwise (fun _ => false) i (mem_idxList i)
      ((hlenz i).mpr hbi) hdci
      (fun k _ hklt hkz => hfirst k hklt ((hlenz k).mp hkz))
    have hpchar := createNodes_some_char e (fun k => (lens2 k).getD 0) idxList
      idxList_pairwise (fun _ => false) i p2 hcn
    have hmapped : unmapIf lens2 m2 idxList j = false := by
      rw [unmapIf_char]
      by_cases hc : j ∈ idxList ∧ (lens2 j).getD 0 ≠ 0
      · rw [if_pos hc]
      · rw [if_neg hc]
        by_cases hm2 : m2 j = true
        · exfalso
          rcases (hchar.1 j).mp hm2 with hfalse | ⟨-, hjb⟩
          · simp at hfalse
          · exact hc ⟨mem_idxList j, (hlenz j).mpr hjb⟩
        · simpa using hm2
    have hpub : destroyIf (fun k => (lens2 k).getD 0) p2 (revBelow i) j = false := by
      rw [destroyIf_char]
      by_cases hc : j ∈ revBelow i ∧ (lens2 j).getD 0 ≠ 0
      · rw [if_pos hc]
      · rw [if_neg hc]
        by_cases hp2 : p2 j = true
        · exfalso
          rcases hpchar.2 j hp2 with hfalse | ⟨-, hjlt, hjz⟩
          · simp at hfalse
          · exact hc ⟨(mem_revBelow i j).mpr hjlt, hjz⟩
        · simpa using hp2
    simp [pci_probe, hk, he, hr, hch, hcd, hmb, hcn, initState, hmapped, hpub]

/-- C3 witness: with BARs 0 and 1 selected, an ioremap failure at index 1
(and, in the second environment, a device_create failure at index 1)
leaves nothing mapped or published, regions released, device disabled,
record freed and no drvdata. -/
theorem probe_failure_cleanup_witness :
    ((pci_probe eExMapFail).1 = false ∧ (pci_probe eExMapFail).2.mapped 0 = false ∧
      (pci_probe eExMapFail).2.published 0 = false ∧
      (pci_probe eExMapFail).2.regionsHeld = false ∧
      (pci_probe eExMapFail).2.deviceEnabled = false ∧
      (pci_probe eExMapFail).2.recordLive = false ∧
      (pci_probe eExMapFail).2.drvdata = none) ∧
    ((pci_probe eExPubFail).1 = false ∧ (pci_probe eExPubFail).2.mapped 0 = false ∧
      (pci_probe eExPubFail).2.published 0 = false ∧
      (pci_probe eExPubFail).2.regionsHeld = false ∧
      (pci_probe eExPubFail).2.deviceEnabled = false ∧
      (pci_probe eExPubFail).2.recordLive = false ∧
      (pci_probe eExPubFail).2.drvdata = none) :=
  ⟨(probe_failure_cleanup eExMapFail 1 0 (by decide) rfl rfl rfl).1 (by decide),
   (probe_failure_cleanup eExPubFail 1 0 (by decide) rfl rfl rfl).2 (by decide)⟩

/-- C4: after a successful pci_probe the published record exists and, for
every BAR index, the recorded length is positive exactly when the BAR is
mapped, which holds exactly when a device node is published for it. -/
theorem probe_success_invariant (e : ProbeEnv) (j : Fin 6)
    (hlen : ∀ k, e.memBars k = true → 0 < e.resLen k)
    (hs : (pci_probe e).1 = true) :
    (pci_probe e).2.drvdata.isSome = true ∧
    (0 < barLenOf (pci_probe e).2 j ↔ (pci_probe e).2.mapped j = true) ∧
    ((pci_probe e).2.mapped j = true ↔ (pci_probe e).2.published j = true) := by
  by_cases hk : e.kmallocFails = true
  · simp [pci_probe, hk] at hs
  by_cases he : e.enableFails = true
  · simp [pci_probe, hk, he] at hs
  by_cases hr : e.requestFails = true
  · simp [pci_probe, hk, he, hr] at hs
  simp only [Bool.not_eq_true] at hk he hr
  rcases hmb : mapBars e (fun _ => false) (fun _ => none) idxList with ⟨oi, m2, lens2⟩
  cases oi with
  | some i =>
    rw [pci_probe] at hs
    simp only [hk, he, hr, Bool.false_eq_true, if_false, hmb] at hs
  | none =>
    have hchar := mapBars_none_char e idxList (fun _ => false) (fun _ => none)
      m2 lens2 hmb
    have hlens : ∀ k : Fin 6, lens2 k =
        some (if e.memBars k then e.resLen k else 0) := by
      intro k
      rw [hchar.2 k, if_pos (mem_idxList k)]
    by_cases hch : e.chrdevFails = true
    · rw [pci_probe] at hs
      simp only [hk, he, hr, Bool.false_eq_true, if_false, hmb, hch, if_true] at hs
    by_cases hcd : e.cdevAddFails = true
    · rw [pci_probe] at hs
      simp only [hk, he, hr, hch, Bool.false_eq_true, if_false, hmb, hcd,
        if_true] at hs
    simp only [Bool.not_eq_true] at hch hcd
    rcases hcn : createNodes e (fun k => (lens2 k).getD 0) (fun _ => false) idxList
      with ⟨oc, p2⟩
    cases oc with
    | some i =>
      rw [pci_probe] at hs
      simp only [hk, he, hr, hch, hcd, Bool.false_eq_true, if_false, hmb,
        hcn] at hs
    | none =>
      have hpchar := createNodes_none_char e (fun k => (lens2 k).getD 0) idxList
        (fun _ => false) p2 hcn
      have hm2 : ∀ k : Fin 6, m2 k = true ↔ e.memBars k = true := by
        intro k
        rw [(hchar.1 k)]
        simp [mem_idxList k]
      have hp2 : ∀ k : Fin 6, p2 k = true ↔ (lens2 k).getD 0 ≠ 0 := by
        intro k
        rw [hpchar k]
        simp [mem_idxList k]
      rw [pci_probe]
      simp only [hk, he, hr, hch, hcd, Bool.false_eq_true, if_false, hmb, hcn]
      refine ⟨rfl, ?_, ?_⟩
      · rw [hm2 j]
        simp only [barLenOf]
        rw [hlens j]
        by_cases hjb : e.memBars j = true
        · have := hlen j hjb
          simp [hjb]
          omega
        · simp [hjb]
      · rw [hm2 j, hp2 j, hlens j]
        by_cases hjb : e.memBars j = true
        · have := hlen j hjb
          simp [hjb]
          omega
        · simp [hjb]

/-- C4 witness: after attaching the one-BAR device eEx, the record exists
and index 0 has positive length, a live mapping and a published node. -/
theorem probe_success_invariant_witness :
    (pci_probe eEx).2.drvdata.isSome = true ∧
    (0 < barLenOf (pci_probe eEx).2 0 ↔ (pci_probe eEx).2.mapped 0 = true) ∧
    ((pci_probe eEx).2.mapped 0 = true ↔ (pci_probe eEx).2.published 0 = true) :=
  probe_success_invariant eEx 0 (by decide) (by decide)

/-- C9 counterexample: after a completed detach of the attached one-BAR
device, drvdata still holds the stale record and a second pci_remove is
not a no-op: it again emits iounmap of BAR 0 — whose mapping is already
gone — and another kfree of the already freed record. -/
theorem remove_not_idempotent_cx :
    (pci_remove pcharEx sEx).1.mapped 0 = false ∧
    (pci_remove pcharEx sEx).1.recordLive = false ∧
    (pci_remove pcharEx sEx).1.drvdata = some pcharEx ∧
    detachSys (pci_remove pcharEx sEx).1 =
      some (pci_remove pcharEx (pci_remove pcharEx sEx).1) ∧
    Act.iounmap 0 ∈ (pci_remove pcharEx (pci_remove pcharEx sEx).1).2 ∧
    Act.kfree ∈ (pci_remove pcharEx (pci_remove pcharEx sEx).1).2 ∧
    (pci_remove pcharEx (pci_remove pcharEx sEx).1).2 ≠ [] :=
  ⟨by decide, by decide, rfl, rfl, by decide, by decide, by decide⟩

/-- C9 amended: pci_remove tears everything down — after one call nothing
is mapped or published, the regions are released and the record is freed —
but it has no already-detached guard and leaves the stale drvdata pointer
in place, so invoking it a second time repeats the teardown: it emits
iounmap for a BAR whose mapping was already released, and kfree again.
Double-detach safety rests on the PCI core calling remove only once. -/
theorem remove_repeats_teardown (s : SysState) (pchar : PChar) (i j : Fin 6)
    (hd : s.drvdata = some pchar)
    (hm : ∀ k, s.mapped k = true → 0 < pchar.barLen k)
    (hp : ∀ k, s.published k = true → 0 < pchar.barLen k)
    (hi : 0 < pchar.barLen i) :
    (pci_remove pchar s).1.mapped j = false ∧
    (pci_remove pchar s).1.published j = false ∧
    (pci_remove pchar s).1.recordLive = false ∧
    (pci_remove pchar s).1.regionsHeld = false ∧
    (pci_remove pchar s).1.drvdata = some pchar ∧
    detachSys (pci_remove pchar s).1 =
      some (pci_remove pchar (pci_remove pchar s).1) ∧
    (pci_remove pchar s).1.mapped i = false ∧
    Act.iounmap i ∈ (pci_remove pchar (pci_remove pchar s).1).2 ∧
    Act.kfree ∈ (pci_remove pchar (pci_remove pchar s).1).2 := by
  have hmf : ∀ k : Fin 6, (pci_remove pchar s).1.mapped k = false := by
    intro k
    simp only [pci_remove]
    rw [unmapAll_mapped]
    by_cases hc : k ∈ idxList ∧ pchar.barLen k ≠ 0
    · rw [if_pos hc]
    · rw [if_neg hc]
      by_cases hmk : s.mapped k = true
      · exact absurd ⟨mem_idxList k, by have := hm k hmk; omega⟩ hc
      · simpa using hmk
  have hpf : ∀ k : Fin 6, (pci_remove pchar s).1.published k = false := by
    intro k
    simp only [pci_remove]
    rw [destroyAll_published]
    by_cases hc : k ∈ idxList ∧ pchar.barLen k ≠ 0
    · rw [if_pos hc]
    · rw [if_neg hc]
      by_cases hpk : s.published k = true
      · exact absurd ⟨mem_idxList k, by have := hp k hpk; omega⟩ hc
      · simpa using hpk
  have hdrv : (pci_remove pchar s).1.drvdata = some pchar := by
    simp only [pci_remove]
    exact hd
  have hgen : ∀ t : SysState, Act.iounmap i ∈ (pci_remove pchar t).2 := by
    intro t
    have hmem : Act.iounmap i ∈ (unmapAll pchar.barLen t.mapped idxList).2 := by
      rw [unmapAll_acts]
      exact ⟨mem_idxList i, by omega⟩
    simp only [pci_remove, List.mem_append]
    tauto
  have hkf : ∀ t : SysState, Act.kfree ∈ (pci_remove pchar t).2 := by
    intro t
    simp [pci_remove]
  refine ⟨hmf j, hpf j, rfl, rfl, hdrv, ?_, hmf i, hgen _, hkf _⟩
  rw [detachSys, hdrv]

/-- C9 amended witness: detaching the attached one-BAR device clears
everything, and a second remove on the stale record emits iounmap 0 and
kfree again. -/
theorem remove_repeats_teardown_witness :
    (pci_remove pcharEx sEx).1.mapped 0 = false ∧
    (pci_remove pcharEx sEx).1.published 0 = false ∧
    (pci_remove pcharEx sEx).1.recordLive = false ∧
    (pci_remove pcharEx sEx).1.regionsHeld = false ∧
    (pci_remove pcharEx sEx).1.drvdata = some pcharEx ∧
    detachSys (pci_remove pcharEx sEx).1 =
      some (pci_remove pcharEx (pci_remove pcharEx sEx).1) ∧
    (pci_remove pcharEx sEx).1.mapped 0 = false ∧
    Act.iounmap 0 ∈ (pci_remove pcharEx (pci_remove pcharEx sEx).1).2 ∧
    Act.kfree ∈ (pci_remove pcharEx (pci_remove pcharEx sEx).1).2 :=
  remove_repeats_teardown sEx pcharEx 0 0 rfl (by decide) (by decide) (by decide)
